import Mathlib

/-!
Shallow embedding of `oct2py/core.py` (the `Oct2Py` session class): the
remote-call protocol, value marshalling hooks, and proxy model, together
with theorems checking the specification's claims against this embedding.
-/

namespace Oct2Py

/-- Python values that flow through the call protocol as arguments and
results (numbers, strings, lists, and `None`). -/
inductive MValue : Type
  | num (n : Int)
  | str (s : String)
  | list (xs : List MValue)
  | none

mutual

/-- Decidable equality on `MValue`. -/
def MValue.decEq : (a b : MValue) → Decidable (a = b)
  | .num a, .num b =>
    if h : a = b then isTrue (by rw [h])
    else isFalse (by intro hh; injection hh; contradiction)
  | .str a, .str b =>
    if h : a = b then isTrue (by rw [h])
    else isFalse (by intro hh; injection hh; contradiction)
  | .list xs, .list ys =>
    match MValue.decEqList xs ys with
    | isTrue h => isTrue (by rw [h])
    | isFalse h => isFalse (by intro hh; injection hh; contradiction)
  | .none, .none => isTrue rfl
  | .num _, .str _ => isFalse (fun h => by injection h)
  | .num _, .list _ => isFalse (fun h => by injection h)
  | .num _, .none => isFalse (fun h => by injection h)
  | .str _, .num _ => isFalse (fun h => by injection h)
  | .str _, .list _ => isFalse (fun h => by injection h)
  | .str _, .none => isFalse (fun h => by injection h)
  | .list _, .num _ => isFalse (fun h => by injection h)
  | .list _, .str _ => isFalse (fun h => by injection h)
  | .list _, .none => isFalse (fun h => by injection h)
  | .none, .num _ => isFalse (fun h => by injection h)
  | .none, .str _ => isFalse (fun h => by injection h)
  | .none, .list _ => isFalse (fun h => by injection h)

/-- Decidable equality on lists of `MValue`. -/
def MValue.decEqList : (xs ys : List MValue) → Decidable (xs = ys)
  | [], [] => isTrue rfl
  | [], _ :: _ => isFalse (fun h => by injection h)
  | _ :: _, [] => isFalse (fun h => by injection h)
  | x :: xs, y :: ys =>
    match MValue.decEq x y, MValue.decEqList xs ys with
    | isTrue h1, isTrue h2 => isTrue (by rw [h1, h2])
    | isFalse h1, _ => isFalse (by intro hh; injection hh; contradiction)
    | _, isFalse h2 => isFalse (by intro hh; injection hh; contradiction)

end

instance : DecidableEq MValue := MValue.decEq

mutual

/-- Python `str()` of a value, as used by `_feval`'s `not str(result)` check. -/
def pyStr : MValue → String
  | .num n => toString n
  | .str s => s
  | .list xs => "[" ++ pyStrList xs ++ "]"
  | .none => "None"

/-- Python `", ".join` of the rendered elements of a list. -/
def pyStrList : List MValue → String
  | [] => ""
  | [v] => pyStr v
  | v :: rest => pyStr v ++ ", " ++ pyStrList rest

end

/-- Python truthiness of a value, as used by `eval`'s `if resp:` check. -/
def pyTruthy : MValue → Bool
  | .num n => n != 0
  | .str s => s != ""
  | .list xs => !xs.isEmpty
  | .none => false

/-- An argument to `feval`/`_feval`: either a proxy (`OctavePtr`, carrying
its `_address` string) or a plain value. -/
inductive FArg : Type
  | ptr (address : String)
  | val (v : MValue)
deriving DecidableEq

/-- Python exceptions raised by the session layer. -/
inductive PyErr : Type
  | typeError (msg : String)
  | valueError (msg : String)
  | oct2py (msg : String)
  | attributeError (msg : String)
deriving DecidableEq

/-! ### Path helpers (`os.path` on a POSIX system, `sep = '/'`) -/

/-- Python `s.startswith(pre)`. -/
def strStartsWith (s pre : String) : Bool :=
  pre.toList.isPrefixOf s.toList

/-- Python `s[:-1]`: all characters but the last. -/
def dropLastChar (s : String) : String :=
  ⟨s.toList.dropLast⟩

/-- Index of the last occurrence of a character in a character list
(Python `str.rfind`, with `none` for "not found"). -/
def lastIdx : List Char → Char → Option Nat
  | [], _ => Option.none
  | x :: xs, c =>
    match lastIdx xs c with
    | some i => some (i + 1)
    | Option.none => if x = c then some 0 else Option.none

/-- Python `os.path.basename`: everything after the last `'/'`. -/
def basename (p : String) : String :=
  match lastIdx p.toList '/' with
  | Option.none => p
  | some i => ⟨p.toList.drop (i + 1)⟩

/-- Python `os.path.dirname`: everything up to and including the last `'/'`,
with trailing slashes stripped unless the head is all slashes. -/
def dirname (p : String) : String :=
  match lastIdx p.toList '/' with
  | Option.none => ""
  | some i =>
    let head := p.toList.take (i + 1)
    if head.all (· = '/') then ⟨head⟩
    else ⟨(head.reverse.dropWhile (· = '/')).reverse⟩

/-- Python `os.path.splitext`: split off the extension at the last `'.'` of the
final path component, unless every character of the component before that
dot is itself a dot (leading dots never start an extension). -/
def splitext (p : String) : String × String :=
  let cs := p.toList
  let sepIdx : Int := match lastIdx cs '/' with
    | Option.none => -1
    | some i => (i : Int)
  let dotIdx : Int := match lastIdx cs '.' with
    | Option.none => -1
    | some i => (i : Int)
  if dotIdx > sepIdx then
    let lo := (sepIdx + 1).toNat
    let hi := dotIdx.toNat
    if ((cs.drop lo).take (hi - lo)).any (· ≠ '.') then
      (⟨cs.take hi⟩, ⟨cs.drop hi⟩)
    else (p, "")
  else (p, "")

/-! ### The call request / response data model -/

/-- The request record `_feval` saves to the outbound MAT file:
`dict(func_name=..., func_args=..., dname=..., nout=..., store_as=...,
replacement_indices=...)`. -/
structure CallReq : Type where
  func_name : String
  func_args : List MValue
  dname : String
  nout : Nat
  store_as : String
  replacement_indices : List Nat
deriving DecidableEq

/-- One `write_file(req, out_file, ...)` event: the path written and the
request record stored there. -/
structure WriteEv : Type where
  path : String
  req : CallReq
deriving DecidableEq

/-- The error record of a decoded response (`resp['error']['message']`). -/
structure ErrRec : Type where
  message : String
deriving DecidableEq

/-- What `read_file(in_file, session)` returns: a dict with an `error`
entry (a record, or null) and a `result` entry. -/
structure ReadResp : Type where
  error : Option ErrRec
  result : MValue
deriving DecidableEq

/-- The interpreter process behind the session, abstracted as oracles:
the integer parsed from the response to the `exist("name")` query, the
stripped textual response to the `isobject(name)` query, and the decoded
response produced by running `_pyeval` on a given request record. -/
structure EngineOracle : Type where
  existCode : String → Nat
  isobjectResp : String → String
  callResp : CallReq → ReadResp

/-- Host-side proxy objects and plain values as returned to the caller.
The proxy constructors stand for the objects built by the `oct2py.dynamic`
module (`_make_function_ptr_instance`, `_make_variable_ptr_instance`,
`_make_user_class`, and `cls.from_name`); `pynone` is Python `None`. -/
inductive PyObj : Type
  | varPtr (name : String)
  | funcPtr (name : String)
  | userClass (name : MValue)
  | instanceObj (className : MValue) (name : String)
  | value (v : MValue)
  | pynone
deriving DecidableEq

/-- The mutable session attributes the claims touch: the MAT-file
directory `temp_dir`, the `_user_classes` cache (a dict keyed by class
name), and the instance attributes bound by `setattr` in `__getattr__`. -/
structure OctState : Type where
  temp_dir : String
  user_classes : List (MValue × PyObj)
  attrs : List (String × PyObj)
deriving DecidableEq

/-! ### `_feval`: the low-level call -/

/-- Path of the outbound MAT file: `os.path.join(temp_dir, 'writer.mat')`
with separators normalized to `'/'`. -/
def outFile (td : String) : String := td ++ "/writer.mat"

/-- Path of the inbound MAT file: `os.path.join(temp_dir, 'reader.mat')`
with separators normalized to `'/'`. -/
def inFile (td : String) : String := td ++ "/reader.mat"

/-- The proxy-substitution loop of `_feval`, carrying the enumeration
index: an `OctavePtr` argument at index `i` is replaced by its `_address`
string and `i + 1` is appended to `replacements`; other arguments pass
through unchanged. Returns the rewritten argument list and the
replacement index list. -/
def substArgs : List FArg → Nat → List MValue × List Nat
  | [], _ => ([], [])
  | FArg.ptr a :: rest, i =>
    let (vs, rs) := substArgs rest (i + 1)
    (MValue.str a :: vs, (i + 1) :: rs)
  | FArg.val v :: rest, i =>
    let (vs, rs) := substArgs rest (i + 1)
    (v :: vs, rs)

/-- The request record `_feval` builds from its arguments. -/
def buildReq (func_name : String) (args : List FArg) (dname : String)
    (nout : Nat) (store_as : String) : CallReq :=
  let p := substArgs args 0
  { func_name := func_name, func_args := p.1, dname := dname,
    nout := nout, store_as := store_as, replacement_indices := p.2 }

/-- Model of `Oct2Py._feval`: build the request, write it to the outbound file,
run `_pyeval` through the engine, read the response; raise `Oct2PyError`
with the error record's message when one is present, otherwise return the
result, with an empty `str()` form collapsed to `None`. Returns the
outcome together with the list of outbound-file writes performed. -/
def _feval (eng : EngineOracle) (td : String) (func_name : String)
    (args : List FArg) (dname : String) (nout : Nat) (store_as : String) :
    Except PyErr MValue × List WriteEv :=
  let req := buildReq func_name args dname nout store_as
  let w := [WriteEv.mk (outFile td) req]
  let resp := eng.callResp req
  match resp.error with
  | some e => (Except.error (PyErr.oct2py e.message), w)
  | Option.none =>
    let result := resp.result
    if pyStr result = "" then (Except.ok MValue.none, w)
    else (Except.ok result, w)

/-! ### `feval`: the public call -/

/-- Modelled from the spec: `get_nout` (in `oct2py.utils`, outside the
provided source) infers the caller's output arity by frame inspection;
the spec fixes its contract as a best-effort convenience whose documented
default is 1, which is the value used here. -/
def get_nout : Nat := 1

/-- The kwargs loop of `feval`: `for key in list(kwargs.keys()): ...
del kwargs[key]` — every key is deleted from the dict (the deletion is
not guarded by the `plot_` prefix test). -/
def delAllKeys : List String → List (String × MValue) → List (String × MValue)
  | [], kwargs => kwargs
  | k :: rest, kwargs => delAllKeys rest (kwargs.filter (fun kv => kv.1 ≠ k))

/-- The kwargs dict after `feval`'s deletion loop has run over all of its
keys. -/
def processKwargs (kwargs : List (String × MValue)) : List (String × MValue) :=
  delAllKeys (kwargs.map Prod.fst) kwargs

/-- The expression `tuple(item for pair in zip(kwargs.keys(), kwargs.values()) for item
in pair)`: the flattened `(key, value)` pairs appended to `func_args`. -/
def kwargsToArgs (kwargs : List (String × MValue)) : List FArg :=
  (kwargs.map (fun kv => [FArg.val (MValue.str kv.1), FArg.val kv.2])).flatten

/-- Model of `Oct2Py.feval`: default `nout`, run the kwargs deletion loop, append
the surviving `(key, value)` pairs to the positional arguments, split the
target path, reject a non-`.m` extension with a `TypeError` before any
file is written, and otherwise delegate to `_feval`. -/
def feval (eng : EngineOracle) (td : String) (func_path : String)
    (func_args : List FArg) (kwargs : List (String × MValue))
    (nout : Option Nat) (store_as : String) :
    Except PyErr MValue × List WriteEv :=
  let n := match nout with
    | Option.none => get_nout
    | some n => n
  let kwargs := processKwargs kwargs
  let args := func_args ++ kwargsToArgs kwargs
  let dname := dirname func_path
  let fname := basename func_path
  let ext := (splitext fname).2
  let func_name := (splitext fname).1
  if ext ≠ "" ∧ ext ≠ ".m" then
    (Except.error (PyErr.typeError "Need to give path to .m file"), [])
  else _feval eng td func_name args dname n store_as

/-! ### `eval` -/

/-- Deprecated keyword arguments accepted by `eval`. -/
structure EvalKw : Type where
  temp_dir : Option String := Option.none
  return_both : Bool := false

/-- What `eval` returns: normally the final `ans`, or the pair
`('', ans)` under the deprecated `return_both` keyword. -/
inductive EvalRet : Type
  | single (v : MValue)
  | both (s : String) (v : MValue)
deriving DecidableEq

/-- One iteration of `eval`'s loop body:
`self.feval('evalin', 'base', cmd, nout=0, ...)`. -/
def evalCmd (eng : EngineOracle) (td : String) (cmd : String) :
    Except PyErr MValue × List WriteEv :=
  feval eng td "evalin"
    [FArg.val (MValue.str "base"), FArg.val (MValue.str cmd)] [] (some 0) ""

/-- Model of `eval`'s command loop: run each command, replacing `ans` whenever the
response is truthy (`if resp:`); a raised error propagates. -/
def evalLoop (eng : EngineOracle) (td : String) (cmds : List String)
    (ans : MValue) : Except PyErr MValue × List WriteEv :=
  match cmds with
  | [] => (Except.ok ans, [])
  | cmd :: rest =>
    match evalCmd eng td cmd with
    | (Except.error e, w) => (Except.error e, w)
    | (Except.ok resp, w) =>
      let ans := if pyTruthy resp then resp else ans
      let p := evalLoop eng td rest ans
      (p.1, w ++ p.2)

/-- Model of `Oct2Py.eval`: save `temp_dir`, apply the deprecated `temp_dir`
keyword override, run the command loop starting from `ans = None`,
restore `temp_dir`, and return `ans` (or `('', ans)` under the deprecated
`return_both` keyword). -/
def eval (eng : EngineOracle) (st : OctState) (cmds : List String)
    (kw : EvalKw) : Except PyErr (OctState × EvalRet) × List WriteEv :=
  let prev := st.temp_dir
  let st1 : OctState := { st with temp_dir := kw.temp_dir.getD prev }
  match evalLoop eng st1.temp_dir cmds MValue.none with
  | (Except.error e, w) => (Except.error e, w)
  | (Except.ok ans, w) =>
    let st2 : OctState := { st1 with temp_dir := prev }
    if kw.return_both then (Except.ok (st2, EvalRet.both "" ans), w)
    else (Except.ok (st2, EvalRet.single ans), w)

/-! ### Existence / type introspection -/

/-- Model of `Oct2Py._exist`: query `exist("name")` through the engine and raise a
`ValueError` when the parsed code is 0 (the name does not exist). -/
def _exist (eng : EngineOracle) (name : String) : Except PyErr Nat :=
  let code := eng.existCode name
  if code = 0 then
    Except.error (PyErr.valueError ("Value \"" ++ name ++ "\" does not exist"))
  else Except.ok code

/-- Model of `Oct2Py._isobject`: codes 2 and 5 are never objects; otherwise query
`isobject(name)` and compare the stripped response with `'ans =  1'`. -/
def _isobject (eng : EngineOracle) (name : String) (exist : Nat) : Bool :=
  if exist = 2 ∨ exist = 5 then false
  else eng.isobjectResp name = "ans =  1"

/-! ### The user-class cache and proxies -/

/-- Model of `Oct2Py._get_user_class`: return the cached class when present;
otherwise store a freshly made class in the cache — and fall off the end
of the function, so that this (first) call returns Python `None`. -/
def _get_user_class (st : OctState) (name : MValue) : OctState × PyObj :=
  match st.user_classes.find? (fun kv => kv.1 = name) with
  | some kv => (st, kv.2)
  | Option.none =>
    ({ st with user_classes := st.user_classes ++ [(name, PyObj.userClass name)] },
     PyObj.pynone)

/-- Model of `Oct2Py.get_pointer`: choose the proxy variant from the existence
code and the object flag.  The instance branch fetches the runtime class
name with `self.eval('class(%s);' % name)` and calls `cls.from_name(name)`
on the cached class (an `AttributeError` when that class is `None`). -/
def get_pointer (eng : EngineOracle) (st : OctState) (name : String) :
    Except PyErr (OctState × PyObj) × List WriteEv :=
  match _exist eng name with
  | Except.error e => (Except.error e, [])
  | Except.ok exist =>
    let isobj := _isobject eng name exist
    if exist = 1 ∧ isobj = true then
      match eval eng st ["class(" ++ name ++ ");"] {} with
      | (Except.error e, w) => (Except.error e, w)
      | (Except.ok (st1, ret), w) =>
        let class_name := match ret with
          | EvalRet.single v => v
          | EvalRet.both _ v => v
        let p := _get_user_class st1 class_name
        match p.2 with
        | PyObj.userClass c => (Except.ok (p.1, PyObj.instanceObj c name), w)
        | _ =>
          (Except.error
            (PyErr.attributeError "NoneType object has no attribute from_name"), w)
    else if exist = 1 then (Except.ok (st, PyObj.varPtr name), [])
    else if isobj = true then
      let p := _get_user_class st (MValue.str name)
      (Except.ok (p.1, p.2), [])
    else if exist = 2 ∨ exist = 3 ∨ exist = 5 then
      (Except.ok (st, PyObj.funcPtr name), [])
    else
      (Except.error
        (PyErr.valueError ("Unknown type for object \"" ++ name ++ "\"")), [])

/-! ### `pull` -/

/-- Model of `pull`'s per-name loop: a name with existence code 1 that is not an
object is fetched with `self.feval('evalin', 'base', name)`; any other
name goes through `get_pointer`. -/
def pullLoop (eng : EngineOracle) (st : OctState) (names : List String) :
    Except PyErr (OctState × List PyObj) × List WriteEv :=
  match names with
  | [] => (Except.ok (st, []), [])
  | name :: rest =>
    match _exist eng name with
    | Except.error e => (Except.error e, [])
    | Except.ok exist =>
      let isobj := _isobject eng name exist
      if exist = 1 ∧ isobj = false then
        match feval eng st.temp_dir "evalin"
            [FArg.val (MValue.str "base"), FArg.val (MValue.str name)]
            [] Option.none "" with
        | (Except.error e, w) => (Except.error e, w)
        | (Except.ok v, w) =>
          match pullLoop eng st rest with
          | (Except.error e, w2) => (Except.error e, w ++ w2)
          | (Except.ok (st2, outs), w2) =>
            (Except.ok (st2, PyObj.value v :: outs), w ++ w2)
      else
        match get_pointer eng st name with
        | (Except.error e, w) => (Except.error e, w)
        | (Except.ok (st1, obj), w) =>
          match pullLoop eng st1 rest with
          | (Except.error e, w2) => (Except.error e, w ++ w2)
          | (Except.ok (st2, outs), w2) =>
            (Except.ok (st2, obj :: outs), w ++ w2)

/-- What `pull` returns: `outputs[0]` when exactly one output was
collected, else the whole list. -/
inductive PullRet : Type
  | one (o : PyObj)
  | many (os : List PyObj)
deriving DecidableEq

/-- Model of `Oct2Py.pull` on a list of names (a single string is wrapped into a
one-element list by the source before this loop runs). -/
def pull (eng : EngineOracle) (st : OctState) (names : List String) :
    Except PyErr (OctState × PullRet) × List WriteEv :=
  match pullLoop eng st names with
  | (Except.error e, w) => (Except.error e, w)
  | (Except.ok (st1, outs), w) =>
    if outs.length = 1 then
      (Except.ok (st1, PullRet.one (outs.headD PyObj.pynone)), w)
    else (Except.ok (st1, PullRet.many outs), w)

/-! ### `__getattr__` -/

/-- The trailing-underscore strip in `__getattr__`
(`if attr[-1] == "_": name = attr[:-1]`): `close_ -> close`. -/
def stripUnderscore (attr : String) : String :=
  if attr.toList.getLast? = some '_' then dropLastChar attr else attr

/-- Model of `Oct2Py.__getattr__`: dunder names fall through to `object` (an
`AttributeError`); one trailing underscore is stripped from the looked-up
name; the name must exist with a callable code (2, 3, 5, or 103); the
resulting object — a user class for objects, else a function pointer — is
bound with `setattr(self, attr, obj)` under the original attribute
name. -/
def __getattr__ (eng : EngineOracle) (st : OctState) (attr : String) :
    Except PyErr (OctState × PyObj) × List WriteEv :=
  if strStartsWith attr "__" then
    (Except.error (PyErr.attributeError attr), [])
  else
    let name := stripUnderscore attr
    match _exist eng name with
    | Except.error e => (Except.error e, [])
    | Except.ok exist =>
      if ¬(exist = 2 ∨ exist = 3 ∨ exist = 5 ∨ exist = 103) then
        (Except.error (PyErr.oct2py
          ("Name \"" ++ name ++ "\" is not a valid callable, use `pull` for variables")), [])
      else
        if _isobject eng name exist then
          let p := _get_user_class st (MValue.str name)
          (Except.ok ({ p.1 with attrs := (attr, p.2) :: p.1.attrs }, p.2), [])
        else
          let obj := PyObj.funcPtr name
          (Except.ok ({ st with attrs := (attr, obj) :: st.attrs }, obj), [])

/-! ### Auxiliary description functions used by the claim statements -/

/-- The value an argument is marshalled as: a proxy becomes its address
string, a plain value passes through. -/
def argSubst : FArg → MValue
  | FArg.ptr a => MValue.str a
  | FArg.val v => v

/-- The value inside a non-raising call outcome (`None` for an error,
which the statements using this function rule out). -/
def exceptValue : Except PyErr MValue → MValue
  | Except.ok v => v
  | Except.error _ => MValue.none

/-- The last truthy element of a result list, starting from `acc`
(`acc` itself when no element is truthy): the value `eval`'s `ans`
accumulator holds after folding the per-command responses. -/
def lastTruthy (rs : List MValue) (acc : MValue) : MValue :=
  match rs with
  | [] => acc
  | r :: rest => lastTruthy rest (if pyTruthy r then r else acc)

/-! ### Concrete sessions and engines used to exercise the model -/

/-- A fresh session state with an empty class cache. -/
def st0 : OctState := { temp_dir := "/tmp", user_classes := [], attrs := [] }

/-- An engine on which every name is a plain variable and every call
decodes to the given result. -/
def constEngine (v : MValue) : EngineOracle :=
  { existCode := fun _ => 1,
    isobjectResp := fun _ => "ans = 0",
    callResp := fun _ => { error := Option.none, result := v } }

/-- An engine on which every call decodes to an error record carrying the
given message. -/
def errEngine (msg : String) : EngineOracle :=
  { existCode := fun _ => 1,
    isobjectResp := fun _ => "ans = 0",
    callResp := fun _ => { error := some { message := msg }, result := MValue.none } }

/-- An engine on which every name has existence code 3 and is flagged as
an object: the shape of a bare class name in `get_pointer`. -/
def classEngine : EngineOracle :=
  { existCode := fun _ => 3,
    isobjectResp := fun _ => "ans =  1",
    callResp := fun _ => { error := Option.none, result := MValue.none } }

/-- An engine on which no name exists (`exist` always yields 0). -/
def missingEngine : EngineOracle :=
  { existCode := fun _ => 0,
    isobjectResp := fun _ => "ans = 0",
    callResp := fun _ => { error := Option.none, result := MValue.none } }

/-- An engine on which every name is a plain callable (`exist` code 2,
not an object). -/
def callableEngine : EngineOracle :=
  { existCode := fun _ => 2,
    isobjectResp := fun _ => "ans = 0",
    callResp := fun _ => { error := Option.none, result := MValue.none } }

/-! ### Claim theorems -/

/-- C1: the claim says every keyword/value pair of a `feval` call is
appended to the positional arguments as a `(key, value)` pair.  The code
instead deletes every keyword from `kwargs` (the `del kwargs[key]` in the
loop is not guarded by the `plot_` test), so the call
`feval('plot', 1, 2, '--', LineWidth=2)` writes a request whose argument
list is exactly `[1, 2, '--']` — the `('LineWidth', 2)` pair never
reaches the request, although the function's own docstring promises the
translation `plot(x, y, '--', 'LineWidth', 2)`. -/
theorem feval_discards_all_kwargs :
    (feval (constEngine (MValue.num 0)) "/tmp" "plot"
        [FArg.val (MValue.num 1), FArg.val (MValue.num 2), FArg.val (MValue.str "--")]
        [("LineWidth", MValue.num 2)] Option.none "").2 =
      [{ path := "/tmp/writer.mat",
         req := { func_name := "plot",
                  func_args := [MValue.num 1, MValue.num 2, MValue.str "--"],
                  dname := "", nout := 1, store_as := "",
                  replacement_indices := [] } }] ∧
    processKwargs [("LineWidth", MValue.num 2)] = [] := by
  exact ⟨rfl, rfl⟩

/-- C2: the claim says `_get_user_class` returns the class proxy for a
name and a repeated call returns the same cached proxy.  The first call
on an empty cache stores the freshly made class but falls off the end of
the function and returns `None`; only the second call returns the cached
proxy. -/
theorem get_user_class_first_call_returns_none :
    (_get_user_class st0 (MValue.str "MyClass")).2 = PyObj.pynone ∧
    (_get_user_class
        ((_get_user_class st0 (MValue.str "MyClass")).1)
        (MValue.str "MyClass")).2 = PyObj.userClass (MValue.str "MyClass") := by
  exact ⟨rfl, rfl⟩

/-- C5: the claim says `pull` of any existing non-variable name returns a
Proxy, never a decoded value.  Pulling a bare class name (existence code
3, flagged as an object) on a fresh session hits the missing-return bug
of `_get_user_class`: `get_pointer` hands back Python `None`, so `pull`
returns `None` instead of a class proxy (the class is nevertheless left
in the cache). -/
theorem pull_class_returns_none :
    pull classEngine st0 ["MyClass"] =
      (Except.ok
        ({ st0 with user_classes :=
            [(MValue.str "MyClass", PyObj.userClass (MValue.str "MyClass"))] },
         PullRet.one PyObj.pynone), []) := by
  exact rfl

/-- C3: `_feval` raises an `Oct2PyError` carrying the interpreter's
message exactly when the decoded response contains an error record;
otherwise it returns the decoded result, with a result whose textual
form is empty collapsed to `None` rather than treated as an error. -/
theorem feval_error_iff_and_blank_to_none (eng : EngineOracle) (td : String)
    (fn : String) (args : List FArg) (dn : String) (n : Nat) (sa : String) :
    ((∃ m, (_feval eng td fn args dn n sa).1 = Except.error (PyErr.oct2py m)) ↔
        (eng.callResp (buildReq fn args dn n sa)).error.isSome = true) ∧
    (∀ e, (eng.callResp (buildReq fn args dn n sa)).error = some e →
        (_feval eng td fn args dn n sa).1 = Except.error (PyErr.oct2py e.message)) ∧
    ((eng.callResp (buildReq fn args dn n sa)).error = Option.none →
        (_feval eng td fn args dn n sa).1 =
          Except.ok
            (if pyStr (eng.callResp (buildReq fn args dn n sa)).result = ""
             then MValue.none
             else (eng.callResp (buildReq fn args dn n sa)).result)) := by
  unfold _feval
  cases he : (eng.callResp (buildReq fn args dn n sa)).error with
  | none =>
    simp only [he]
    refine ⟨?_, ?_, ?_⟩
    · constructor
      · rintro ⟨m, hm⟩
        split at hm <;> simp at hm
      · intro hs
        simp [Option.isSome] at hs
    · intro e he2
      exact absurd he2 (by simp)
    · intro _
      split <;> simp_all
  | some e =>
    simp only [he]
    refine ⟨?_, ?_, ?_⟩
    · simp
    · intro e2 he2
      simp at he2
      simp [he2]
    · intro h2
      exact absurd h2 (by simp)

/-- Witness for C3 at concrete inputs: an error record in the response
surfaces as an `Oct2PyError` with that message, and with no error record
a blank textual result comes back as `None`. -/
theorem feval_error_iff_witness :
    (_feval (errEngine "boom") "/tmp" "f" [] "" 1 "").1 =
        Except.error (PyErr.oct2py "boom") ∧
    (_feval (constEngine (MValue.str "")) "/tmp" "f" [] "" 1 "").1 =
        Except.ok MValue.none := by
  constructor
  · exact (feval_error_iff_and_blank_to_none (errEngine "boom") "/tmp" "f" [] ""
      1 "").2.1 { message := "boom" } rfl
  · have h := (feval_error_iff_and_blank_to_none (constEngine (MValue.str ""))
      "/tmp" "f" [] "" 1 "").2.2 rfl
    simpa using h

/-- C6: a `feval` target path whose basename carries a non-empty
extension other than `.m` is rejected with a `TypeError` before any
request is built, and no outbound payload file is written. -/
theorem feval_rejects_non_m_extension (eng : EngineOracle) (td : String)
    (fp : String) (args : List FArg) (kwargs : List (String × MValue))
    (nout : Option Nat) (sa : String)
    (h1 : (splitext (basename fp)).2 ≠ "")
    (h2 : (splitext (basename fp)).2 ≠ ".m") :
    feval eng td fp args kwargs nout sa =
      (Except.error (PyErr.typeError "Need to give path to .m file"), []) := by
  unfold feval
  simp [h1, h2]

/-- Witness for C6: calling `feval` on `sub/foo.txt` fails with the
`TypeError` and writes nothing. -/
theorem feval_rejects_non_m_extension_witness :
    (splitext (basename "sub/foo.txt")).2 ≠ "" ∧
    (splitext (basename "sub/foo.txt")).2 ≠ ".m" ∧
    feval (constEngine (MValue.num 0)) "/tmp" "sub/foo.txt" [] [] Option.none "" =
      (Except.error (PyErr.typeError "Need to give path to .m file"), []) := by
  refine ⟨by decide, by decide, ?_⟩
  exact feval_rejects_non_m_extension (constEngine (MValue.num 0)) "/tmp"
    "sub/foo.txt" [] [] Option.none "" (by decide) (by decide)

/-- The rewritten argument list of `substArgs` is the elementwise
substitution. -/
theorem substArgs_fst (args : List FArg) (k : Nat) :
    (substArgs args k).1 = args.map argSubst := by
  induction args generalizing k with
  | nil => rfl
  | cons a rest ih =>
    cases a <;> simp [substArgs, argSubst, ih]

/-- Membership in the replacement index list of `substArgs`: exactly the
1-based positions (offset by the running index) holding a proxy. -/
theorem substArgs_snd_mem (args : List FArg) (k j : Nat) :
    j ∈ (substArgs args k).2 ↔
      ∃ i, (∃ a, args[i]? = some (FArg.ptr a)) ∧ j = k + i + 1 := by
  induction args generalizing k with
  | nil => simp [substArgs]
  | cons x rest ih =>
    cases x with
    | ptr a =>
      simp only [substArgs, List.mem_cons, ih (k + 1)]
      constructor
      · rintro (rfl | ⟨i, ⟨b, hb⟩, rfl⟩)
        · exact ⟨0, ⟨a, by simp⟩, by omega⟩
        · exact ⟨i + 1, ⟨b, by simpa using hb⟩, by omega⟩
      · rintro ⟨i, ⟨b, hb⟩, rfl⟩
        cases i with
        | zero => exact Or.inl (by omega)
        | succ i =>
          exact Or.inr ⟨i, ⟨b, by simpa using hb⟩, by omega⟩
    | val v =>
      simp only [substArgs, ih (k + 1)]
      constructor
      · rintro ⟨i, ⟨b, hb⟩, rfl⟩
        exact ⟨i + 1, ⟨b, by simpa using hb⟩, by omega⟩
      · rintro ⟨i, ⟨b, hb⟩, rfl⟩
        cases i with
        | zero => simp at hb
        | succ i =>
          exact ⟨i, ⟨b, by simpa using hb⟩, by omega⟩

/-- The model `_feval` always writes exactly one request record to the outbound
file, the one built from its arguments. -/
theorem feval_inner_writes (eng : EngineOracle) (td : String) (fn : String)
    (args : List FArg) (dn : String) (n : Nat) (sa : String) :
    (_feval eng td fn args dn n sa).2 =
      [{ path := outFile td, req := buildReq fn args dn n sa }] := by
  unfold _feval
  cases he : (eng.callResp (buildReq fn args dn n sa)).error with
  | none =>
    simp only [he]
    split <;> rfl
  | some e => simp [he]

/-- C7: in the request `_feval` writes, a proxy argument at position `i`
is replaced by its address string and `i + 1` is recorded in the
proxy-substitution index list; a plain argument passes through unchanged
and its position never appears in that list. -/
theorem feval_proxy_substitution (eng : EngineOracle) (td : String)
    (fn : String) (dn : String) (n : Nat) (sa : String) (args : List FArg)
    (i : Nat) :
    (∃ req, (_feval eng td fn args dn n sa).2 = [{ path := outFile td, req := req }] ∧
        req.func_args = (substArgs args 0).1 ∧
        req.replacement_indices = (substArgs args 0).2) ∧
    (∀ a, args[i]? = some (FArg.ptr a) →
        (substArgs args 0).1[i]? = some (MValue.str a) ∧
        (i + 1) ∈ (substArgs args 0).2) ∧
    (∀ v, args[i]? = some (FArg.val v) →
        (substArgs args 0).1[i]? = some v ∧
        ¬ (i + 1) ∈ (substArgs args 0).2) := by
  refine ⟨⟨buildReq fn args dn n sa, feval_inner_writes eng td fn args dn n sa,
    rfl, rfl⟩, ?_, ?_⟩
  · intro a ha
    constructor
    · rw [substArgs_fst, List.getElem?_map, ha]
      rfl
    · rw [substArgs_snd_mem]
      exact ⟨i, ⟨a, ha⟩, by omega⟩
  · intro v hv
    constructor
    · rw [substArgs_fst, List.getElem?_map, hv]
      rfl
    · rw [substArgs_snd_mem]
      rintro ⟨i2, ⟨b, hb⟩, hji⟩
      have : i2 = i := by omega
      subst this
      rw [hv] at hb
      simp at hb


/-- Witness for C7 at a concrete argument list `[ptr "A", val 7]`: the
proxy at position 0 is substituted by its address and index 1 recorded;
the plain value at position 1 passes through and index 2 is absent. -/
theorem feval_proxy_substitution_witness :
    ((substArgs [FArg.ptr "A", FArg.val (MValue.num 7)] 0).1[0]? =
        some (MValue.str "A") ∧
      (0 + 1) ∈ (substArgs [FArg.ptr "A", FArg.val (MValue.num 7)] 0).2) ∧
    ((substArgs [FArg.ptr "A", FArg.val (MValue.num 7)] 0).1[1]? =
        some (MValue.num 7) ∧
      ¬ (1 + 1) ∈ (substArgs [FArg.ptr "A", FArg.val (MValue.num 7)] 0).2) := by
  constructor
  · exact (feval_proxy_substitution (constEngine MValue.none) "/tmp" "f" "" 1 ""
      [FArg.ptr "A", FArg.val (MValue.num 7)] 0).2.1 "A" rfl
  · exact (feval_proxy_substitution (constEngine MValue.none) "/tmp" "f" "" 1 ""
      [FArg.ptr "A", FArg.val (MValue.num 7)] 1).2.2 (MValue.num 7) rfl

/-- C4 counterexample: the claim says `eval` returns the last *non-null*
per-command result.  A single command whose call decodes to the number
`0` — non-null — makes `eval` return `None`, because the loop keeps a
response only when it is *truthy* (`if resp:`), and `0` is falsy. -/
theorem eval_drops_falsy_result :
    (∃ st1 w, eval (constEngine (MValue.num 0)) st0 ["x"] {} =
        (Except.ok (st1, EvalRet.single MValue.none), w)) ∧
    (evalCmd (constEngine (MValue.num 0)) st0.temp_dir "x").1 =
        Except.ok (MValue.num 0) ∧
    MValue.num 0 ≠ MValue.none := by
  refine ⟨⟨st0, _, rfl⟩, rfl, by decide⟩

/-- When every command's call succeeds, `eval`'s loop returns the last
truthy response, starting from the accumulator. -/
theorem evalLoop_ok (eng : EngineOracle) (td : String) :
    ∀ (cmds : List String) (acc : MValue),
      (∀ cmd ∈ cmds, ((evalCmd eng td cmd).1).isOk = true) →
      (evalLoop eng td cmds acc).1 =
        Except.ok
          (lastTruthy (cmds.map fun c => exceptValue (evalCmd eng td c).1) acc) := by
  intro cmds
  induction cmds with
  | nil => intro acc _; rfl
  | cons cmd rest ih =>
    intro acc h
    have hc := h cmd (List.mem_cons_self _ _)
    unfold evalLoop
    cases heq : evalCmd eng td cmd with
    | mk r w =>
      cases r with
      | error e =>
        rw [heq] at hc
        simp [Except.isOk, Except.toBool] at hc
      | ok v =>
        simp only [List.map_cons, lastTruthy, heq, exceptValue]
        exact ih (if pyTruthy v then v else acc)
          (fun c hcmem => h c (List.mem_cons_of_mem _ hcmem))

/-- C4, amended: `eval` runs each command in order as a zero-arity
`evalin base` call and returns the last per-command result that is
*truthy* under Python truthiness (so a falsy non-null result such as `0`
or an empty string is skipped); if every command produces a falsy
result, `eval` returns `None`. -/
theorem eval_returns_last_truthy (eng : EngineOracle) (st : OctState)
    (cmds : List String) (kw : EvalKw)
    (hrb : kw.return_both = false)
    (h : ∀ cmd ∈ cmds,
        ((evalCmd eng (kw.temp_dir.getD st.temp_dir) cmd).1).isOk = true) :
    ∃ st1 w, eval eng st cmds kw =
      (Except.ok (st1, EvalRet.single
          (lastTruthy
            (cmds.map fun c =>
              exceptValue (evalCmd eng (kw.temp_dir.getD st.temp_dir) c).1)
            MValue.none)), w) := by
  have hl := evalLoop_ok eng (kw.temp_dir.getD st.temp_dir) cmds MValue.none h
  rcases hp : evalLoop eng (kw.temp_dir.getD st.temp_dir) cmds MValue.none
    with ⟨r, w⟩
  rw [hp] at hl
  dsimp only at hl
  refine ⟨{ st with temp_dir := st.temp_dir }, w, ?_⟩
  unfold eval
  dsimp only
  rw [hp, hl]
  simp [hrb]

/-- Witness for C4's amended theorem: a single command whose call decodes
to `5` makes `eval` return `5` — the last truthy result. -/
theorem eval_returns_last_truthy_witness :
    (({} : EvalKw).return_both = false) ∧
    (∀ cmd ∈ ["a"],
        ((evalCmd (constEngine (MValue.num 5))
            ((({} : EvalKw).temp_dir).getD st0.temp_dir) cmd).1).isOk = true) ∧
    ∃ st1 w, eval (constEngine (MValue.num 5)) st0 ["a"] {} =
      (Except.ok (st1, EvalRet.single
          (lastTruthy
            (["a"].map fun c =>
              exceptValue (evalCmd (constEngine (MValue.num 5))
                ((({} : EvalKw).temp_dir).getD st0.temp_dir) c).1)
            MValue.none)), w) := by
  refine ⟨rfl, ?_, ?_⟩
  · intro c hc
    simp only [List.mem_singleton] at hc
    subst hc
    rfl
  · exact eval_returns_last_truthy (constEngine (MValue.num 5)) st0 ["a"] {} rfl
      (by intro c hc; simp only [List.mem_singleton] at hc; subst hc; rfl)

/-- C8: a name whose existence query yields code 0 makes resolution —
`pull`, `get_pointer`, or attribute access — fail with the `ValueError`
of `_exist` ("Value ... does not exist"), and no call request payload is
written for the resolved call. -/
theorem missing_name_fails_without_write (eng : EngineOracle) (st : OctState)
    (name : String) (h : eng.existCode name = 0) :
    pull eng st [name] =
      (Except.error
        (PyErr.valueError ("Value \"" ++ name ++ "\" does not exist")), []) ∧
    get_pointer eng st name =
      (Except.error
        (PyErr.valueError ("Value \"" ++ name ++ "\" does not exist")), []) ∧
    (∀ attr, strStartsWith attr "__" = false → stripUnderscore attr = name →
      __getattr__ eng st attr =
        (Except.error
          (PyErr.valueError ("Value \"" ++ name ++ "\" does not exist")), [])) := by
  have he : _exist eng name =
      Except.error
        (PyErr.valueError ("Value \"" ++ name ++ "\" does not exist")) := by
    simp [_exist, h]
  refine ⟨?_, ?_, ?_⟩
  · unfold pull pullLoop
    rw [he]
  · unfold get_pointer
    rw [he]
  · intro attr h0 hstrip
    unfold __getattr__
    rw [h0]
    simp only [Bool.false_eq_true, if_false, hstrip, he]

/-- Witness for C8: on an engine where no name exists, pull /
get_pointer / attribute access on `nope` all fail with the `ValueError`
and write nothing. -/
theorem missing_name_fails_without_write_witness :
    missingEngine.existCode "nope" = 0 ∧
    pull missingEngine st0 ["nope"] =
      (Except.error
        (PyErr.valueError "Value \"nope\" does not exist"), []) ∧
    __getattr__ missingEngine st0 "nope" =
      (Except.error
        (PyErr.valueError "Value \"nope\" does not exist"), []) := by
  have h := missing_name_fails_without_write missingEngine st0 "nope" rfl
  exact ⟨rfl, by simpa using h.1, by simpa using h.2.2 "nope" rfl rfl⟩

/-- C9: for an attribute that does not start with `__` and ends with a
single trailing underscore, `__getattr__` strips the underscore before
the remote existence/type lookup (when the stripped name exists with a
callable code and is not an object it yields a function pointer to the
stripped name), while the proxy is memoized on the session under the
original underscored attribute name. -/
theorem getattr_strips_trailing_underscore (eng : EngineOracle)
    (st : OctState) (attr : String)
    (h0 : strStartsWith attr "__" = false)
    (h1 : attr.toList.getLast? = some '_')
    (h2 : attr.toList.dropLast.getLast? ≠ some '_')
    (hex : eng.existCode (dropLastChar attr) = 2 ∨
           eng.existCode (dropLastChar attr) = 3 ∨
           eng.existCode (dropLastChar attr) = 5 ∨
           eng.existCode (dropLastChar attr) = 103)
    (hobj : _isobject eng (dropLastChar attr)
        (eng.existCode (dropLastChar attr)) = false) :
    stripUnderscore attr = dropLastChar attr ∧
    __getattr__ eng st attr =
      (Except.ok
        ({ st with attrs :=
            (attr, PyObj.funcPtr (dropLastChar attr)) :: st.attrs },
         PyObj.funcPtr (dropLastChar attr)), []) := by
  have hstrip : stripUnderscore attr = dropLastChar attr := by
    unfold stripUnderscore
    rw [if_pos h1]
  have hne : eng.existCode (dropLastChar attr) ≠ 0 := by
    rcases hex with h | h | h | h <;> omega
  have he : _exist eng (dropLastChar attr) =
      Except.ok (eng.existCode (dropLastChar attr)) := by
    simp [_exist, hne]
  refine ⟨hstrip, ?_⟩
  unfold __getattr__
  rw [h0]
  simp only [Bool.false_eq_true, if_false, hstrip, he]
  have hcall : (eng.existCode (dropLastChar attr) = 2 ∨
      eng.existCode (dropLastChar attr) = 3 ∨
      eng.existCode (dropLastChar attr) = 5 ∨
      eng.existCode (dropLastChar attr) = 103) := hex
  simp [hcall, hobj]

/-- Witness for C9: on an engine where `print` is a callable
(code 2, not an object), accessing `print_` resolves the remote name
`print` and memoizes the function pointer under `print_`. -/
theorem getattr_strips_trailing_underscore_witness :
    (strStartsWith "print_" "__" = false ∧
     "print_".toList.getLast? = some '_' ∧
     "print_".toList.dropLast.getLast? ≠ some '_' ∧
     callableEngine.existCode "print" = 2 ∧
     _isobject callableEngine "print" (callableEngine.existCode "print") = false) ∧
    (stripUnderscore "print_" = "print" ∧
     __getattr__ callableEngine st0 "print_" =
       (Except.ok
         ({ st0 with attrs := [("print_", PyObj.funcPtr "print")] },
          PyObj.funcPtr "print"), [])) := by
  refine ⟨⟨by decide, by decide, by decide, rfl, rfl⟩, ?_⟩
  have h := getattr_strips_trailing_underscore callableEngine st0 "print_"
    (by decide) (by decide) (by decide) (Or.inl rfl) rfl
  exact h

/-- C10: whenever `eval` returns normally, the session's `temp_dir` after
the call equals its value before the call, even when the deprecated
`temp_dir` keyword temporarily overrides it during the evaluation. -/
theorem eval_restores_temp_dir (eng : EngineOracle) (st : OctState)
    (cmds : List String) (kw : EvalKw) (st1 : OctState) (r : EvalRet)
    (w : List WriteEv)
    (h : eval eng st cmds kw = (Except.ok (st1, r), w)) :
    st1.temp_dir = st.temp_dir := by
  unfold eval at h
  dsimp only at h
  rcases hp : evalLoop eng (kw.temp_dir.getD st.temp_dir) cmds MValue.none
    with ⟨lr, lw⟩
  rw [hp] at h
  cases lr with
  | error e => simp at h
  | ok ans =>
    dsimp only at h
    split at h <;>
      (injection h with h1 h2; injection h1 with h3; injection h3 with h4 h5;
        rw [← h4])

/-- Witness for C10: an `eval` call with the deprecated `temp_dir`
keyword writes its payload under the override directory yet hands back a
session state whose `temp_dir` is the original one. -/
theorem eval_restores_temp_dir_witness :
    eval (constEngine (MValue.num 5)) st0 ["a"]
        { temp_dir := some "/shm", return_both := false } =
      (Except.ok (st0, EvalRet.single (MValue.num 5)),
        [{ path := "/shm/writer.mat",
           req := { func_name := "evalin",
                    func_args := [MValue.str "base", MValue.str "a"],
                    dname := "", nout := 0, store_as := "",
                    replacement_indices := [] } }]) ∧
    st0.temp_dir = st0.temp_dir := by
  refine ⟨rfl, ?_⟩
  exact eval_restores_temp_dir (constEngine (MValue.num 5)) st0 ["a"]
    { temp_dir := some "/shm", return_both := false } st0
    (EvalRet.single (MValue.num 5)) _ rfl

end Oct2Py
